import Mathlib

/-!
Verification of the ppl.cv x86 perspective-warp operations
(`WarpPerspectiveNearestPoint`, `WarpPerspectiveLinear`,
src/include/ppl/cv/x86/warpperspective.h).

Only the public header of the warp engine is present in the repository
snapshot; the engine bodies are modelled from the specification
(spec.md sections 3-6): coordinates and accumulators are exact
rationals standing for the double/float arithmetic of the C++ code,
image buffers are functions from flat element offsets to element
values, and the row-major output loop is a left fold over the list of
output pixel coordinates.
-/

namespace PplCv

/-- Modelled from the spec: the `BorderType` enumeration
{CONSTANT, REPLICATE, TRANSPARENT} of `ppl/cv/types.h`
(the header is not in the snapshot; spec section 3). -/
inductive BorderType where
  | constant
  | replicate
  | transparent
deriving DecidableEq, Repr

/-- Modelled from the spec: the status code returned by the warp calls
(`ppl/common/retcode.h` is not in the snapshot; spec sections 6-7:
"Returns a status/result code, OK on success"). -/
inductive RetCode where
  | ok
deriving DecidableEq, Repr

/-- The 3x3 perspective matrix, flat row-major m00..m22, double
coefficients modelled as exact rationals (spec section 3,
`affineMatrix` argument of the header). -/
structure Mat3 where
  m00 : ℚ
  m01 : ℚ
  m02 : ℚ
  m10 : ℚ
  m11 : ℚ
  m12 : ℚ
  m20 : ℚ
  m21 : ℚ
  m22 : ℚ
deriving DecidableEq, Repr

/-- The argument record of a warp call, mirroring the parameter list of
`WarpPerspectiveNearestPoint` / `WarpPerspectiveLinear` in
src/include/ppl/cv/x86/warpperspective.h lines 81-93 and 200-212. -/
structure WarpParams where
  inHeight : ℕ
  inWidth : ℕ
  inWidthStride : ℕ
  outHeight : ℕ
  outWidth : ℕ
  outWidthStride : ℕ
  channels : ℕ
  M : Mat3
  border_type : BorderType
  border_value : ℚ
deriving DecidableEq, Repr

/-- Modelled from the spec: CoordinateMapper, perspective branch,
denominator: w = m20·x + m21·y + m22 (spec section 4). -/
def wCoord (M : Mat3) (x y : ℤ) : ℚ :=
  M.m20 * (x : ℚ) + M.m21 * (y : ℚ) + M.m22

/-- Modelled from the spec: CoordinateMapper, perspective branch,
u = (m00·x + m01·y + m02)/w (spec section 4). -/
def uCoord (M : Mat3) (x y : ℤ) : ℚ :=
  (M.m00 * (x : ℚ) + M.m01 * (y : ℚ) + M.m02) / wCoord M x y

/-- Modelled from the spec: CoordinateMapper, perspective branch,
v = (m10·x + m11·y + m12)/w (spec section 4). -/
def vCoord (M : Mat3) (x y : ℤ) : ℚ :=
  (M.m10 * (x : ℚ) + M.m11 * (y : ℚ) + M.m12) / wCoord M x y

/-- Reading one channel of one input pixel from the caller-owned
strided row-major buffer (spec section 3, "Image view"). -/
def inPixel (p : WarpParams) (d : ℕ → ℚ) (x y c : ℕ) : ℚ :=
  d (y * p.inWidthStride + x * p.channels + c)

/-- A source tap (tx, ty) is in range when it lies inside
[0, inWidth) x [0, inHeight) (spec section 4, BoundaryPolicy). -/
def inRangeTap (p : WarpParams) (tx ty : ℤ) : Prop :=
  0 ≤ tx ∧ tx < (p.inWidth : ℤ) ∧ 0 ≤ ty ∧ ty < (p.inHeight : ℤ)

instance (p : WarpParams) (tx ty : ℤ) : Decidable (inRangeTap p tx ty) := by
  unfold inRangeTap
  infer_instance

/-- Clamping an out-of-range index component to the nearest valid
border index (spec section 4, REPLICATE). -/
def clampIdx (n : ℕ) (i : ℤ) : ℕ :=
  (max 0 (min i ((n : ℤ) - 1))).toNat

/-- Modelled from the spec: BoundaryPolicy tap resolution for one
source tap of the bilinear neighbourhood (spec section 4): an
in-range tap reads the input pixel; an out-of-range tap yields
BorderValue under CONSTANT and the clamped border pixel otherwise. -/
def resolveTap (p : WarpParams) (d : ℕ → ℚ) (tx ty : ℤ) (c : ℕ) : ℚ :=
  if inRangeTap p tx ty then
    inPixel p d tx.toNat ty.toNat c
  else
    match p.border_type with
    | .constant => p.border_value
    | .replicate => inPixel p d (clampIdx p.inWidth tx) (clampIdx p.inHeight ty) c
    | .transparent => inPixel p d (clampIdx p.inWidth tx) (clampIdx p.inHeight ty) c

/-- Modelled from the spec: the bilinear blend
(1−fu)(1−fv)·p00 + fu(1−fv)·p10 + (1−fu)fv·p01 + fu·fv·p11
(spec section 4, Sampler, Linear). -/
def bilinearBlend (p00 p10 p01 p11 fu fv : ℚ) : ℚ :=
  (1 - fu) * (1 - fv) * p00 + fu * (1 - fv) * p10 +
    (1 - fu) * fv * p01 + fu * fv * p11

/-- The accumulated (pre-store) bilinear sample of channel c at source
coordinate (u, v): taps at (u0,v0),(u0+1,v0),(u0,v0+1),(u0+1,v0+1) with
u0 = ⌊u⌋, v0 = ⌊v⌋, fu = u − u0, fv = v − v0, each tap resolved by the
boundary policy (spec section 4). -/
def blendAtCoord (p : WarpParams) (d : ℕ → ℚ) (u v : ℚ) (c : ℕ) : ℚ :=
  bilinearBlend (resolveTap p d ⌊u⌋ ⌊v⌋ c) (resolveTap p d (⌊u⌋ + 1) ⌊v⌋ c)
    (resolveTap p d ⌊u⌋ (⌊v⌋ + 1) c) (resolveTap p d (⌊u⌋ + 1) (⌊v⌋ + 1) c)
    (u - (⌊u⌋ : ℚ)) (v - (⌊v⌋ : ℚ))

/-- The accumulated bilinear sample of channel c at output pixel
(x, y): `blendAtCoord` at the mapped source coordinate. -/
def blendAt (p : WarpParams) (d : ℕ → ℚ) (x y c : ℕ) : ℚ :=
  blendAtCoord p d (uCoord p.M x y) (vCoord p.M x y) c

/-- Modelled from the spec: the element store of the 8-bit unsigned
path — the higher-precision accumulator is rounded and clamped to
[0, 255] (spec section 4, Sampler). -/
def storeU8 (q : ℚ) : ℚ :=
  ((max 0 (min 255 (round q)) : ℤ) : ℚ)

/-- Modelled from the spec: the element store of the float32 path —
the accumulator is stored without clamping (spec section 4). -/
def storeF32 (q : ℚ) : ℚ := q

/-- Modelled from the spec: the per-pixel result of the nearest-point
sampler (spec section 4): (u, v) is rounded to the nearest integer
pixel (ties half-up, one fixed convention as the spec requires);
an in-range pick reads the input, otherwise CONSTANT yields
BorderValue on every channel, REPLICATE the clamped border pixel,
and TRANSPARENT skips the output pixel (`none`). -/
def nearestAt (p : WarpParams) (d : ℕ → ℚ) (u v : ℚ) : Option (ℕ → ℚ) :=
  if inRangeTap p (round u) (round v) then
    some (fun c => inPixel p d (round u).toNat (round v).toNat c)
  else
    match p.border_type with
    | .constant => some (fun _ => p.border_value)
    | .replicate =>
        some (fun c =>
          inPixel p d (clampIdx p.inWidth (round u)) (clampIdx p.inHeight (round v)) c)
    | .transparent => none

/-- The nearest-point sampler at output pixel (x, y): `nearestAt` at
the mapped source coordinate (uCoord, vCoord). -/
def nearestResult (p : WarpParams) (d : ℕ → ℚ) (x y : ℕ) : Option (ℕ → ℚ) :=
  nearestAt p d (uCoord p.M x y) (vCoord p.M x y)

/-- Modelled from the spec: the per-pixel result of the bilinear
sampler (spec section 4): under TRANSPARENT the output pixel is
skipped when the top-left tap (⌊u⌋, ⌊v⌋) is out of range (the spec's
recommended partial-coverage rule); otherwise every channel stores
the policy-resolved blend through the element store. -/
def linearAt (store : ℚ → ℚ) (p : WarpParams) (d : ℕ → ℚ) (u v : ℚ) :
    Option (ℕ → ℚ) :=
  if p.border_type = .transparent ∧ ¬ inRangeTap p ⌊u⌋ ⌊v⌋ then
    none
  else
    some (fun c => store (blendAtCoord p d u v c))

/-- The bilinear sampler at output pixel (x, y): `linearAt` at the
mapped source coordinate (uCoord, vCoord). -/
def linearResult (store : ℚ → ℚ) (p : WarpParams) (d : ℕ → ℚ) (x y : ℕ) :
    Option (ℕ → ℚ) :=
  linearAt store p d (uCoord p.M x y) (vCoord p.M x y)

/-- The flat offset of channel 0 of output pixel (x, y). -/
def pixelBase (p : WarpParams) (x y : ℕ) : ℕ :=
  y * p.outWidthStride + x * p.channels

/-- Writing the `channels` channel values of output pixel (x, y) into
the strided output buffer. -/
def writePixel (p : WarpParams) (buf : ℕ → ℚ) (x y : ℕ) (vals : ℕ → ℚ) :
    ℕ → ℚ :=
  fun off =>
    if pixelBase p x y ≤ off ∧ off < pixelBase p x y + p.channels then
      vals (off - pixelBase p x y)
    else buf off

/-- One loop iteration of the WarpEngine: write the sampler's channel
values, or leave the buffer untouched when the sampler skips
(spec section 4, TRANSPARENT). -/
def stepPixel (pixelF : ℕ → ℕ → Option (ℕ → ℚ)) (p : WarpParams)
    (buf : ℕ → ℚ) (xy : ℕ × ℕ) : ℕ → ℚ :=
  match pixelF xy.1 xy.2 with
  | some vals => writePixel p buf xy.1 xy.2 vals
  | none => buf

/-- Modelled from the spec: the WarpEngine traversal — a fold of the
per-pixel step over a list of output pixel coordinates
(spec section 4, WarpEngine). -/
def runWarp (pixelF : ℕ → ℕ → Option (ℕ → ℚ)) (p : WarpParams)
    (order : List (ℕ × ℕ)) (buf0 : ℕ → ℚ) : ℕ → ℚ :=
  order.foldl (stepPixel pixelF p) buf0

/-- The row-major enumeration of the output grid
(spec section 4: "Traverses the output grid row-major"). -/
def rowMajor (p : WarpParams) : List (ℕ × ℕ) :=
  (List.range p.outHeight).flatMap fun y =>
    (List.range p.outWidth).map fun x => (x, y)

/-- Modelled from the spec: the body of `WarpPerspectiveNearestPoint`
(header src/include/ppl/cv/x86/warpperspective.h lines 81-93; the
implementation file is absent): row-major traversal with the
nearest-point sampler, returning the final output buffer. -/
def WarpPerspectiveNearestPoint (p : WarpParams) (inData outData : ℕ → ℚ) :
    ℕ → ℚ :=
  runWarp (nearestResult p inData) p (rowMajor p) outData

/-- Modelled from the spec: the body of `WarpPerspectiveLinear`
(header src/include/ppl/cv/x86/warpperspective.h lines 200-212; the
implementation file is absent): row-major traversal with the bilinear
sampler, `store` being the element store of the instantiated type
(`storeU8` or `storeF32`). -/
def WarpPerspectiveLinear (store : ℚ → ℚ) (p : WarpParams)
    (inData outData : ℕ → ℚ) : ℕ → ℚ :=
  runWarp (linearResult store p inData) p (rowMajor p) outData

/-- Modelled from the spec: the status code of a well-formed warp call
(spec sections 6-7: the engine returns OK on success; no validation is
performed for well-formed calls). -/
def warpRetCode (_p : WarpParams) : RetCode := RetCode.ok

/-- The default border-type argument of both declarations
(src/include/ppl/cv/x86/warpperspective.h lines 92 and 211:
`BorderType border_type = BORDER_TYPE_CONSTANT`). -/
def defaultBorderType : BorderType := BorderType.constant

/-- The default border-value argument of both declarations
(src/include/ppl/cv/x86/warpperspective.h lines 93 and 212:
`T border_value = 0`). -/
def defaultBorderValue : ℚ := 0

/-- Assembling the argument record with the two border arguments
passed explicitly. -/
def mkParams (inH inW inStride outH outW outStride ch : ℕ) (M : Mat3)
    (bt : BorderType) (bv : ℚ) : WarpParams :=
  ⟨inH, inW, inStride, outH, outW, outStride, ch, M, bt, bv⟩

/-- Assembling the argument record with the two border arguments
omitted, so that the declaration's defaults apply. -/
def mkParamsDefault (inH inW inStride outH outW outStride ch : ℕ) (M : Mat3) :
    WarpParams :=
  mkParams inH inW inStride outH outW outStride ch M defaultBorderType
    defaultBorderValue

/-- The identity perspective matrix. -/
def idMat : Mat3 := ⟨1, 0, 0, 0, 1, 0, 0, 0, 1⟩

/-- A translation by (1/2, 1/2), placing the mapped coordinate midway
between four input pixels. -/
def halfMat : Mat3 := ⟨1, 0, 1/2, 0, 1, 1/2, 0, 0, 1⟩

/-- A translation by (100, 100), mapping every small grid far outside
a small input image. -/
def farMat : Mat3 := ⟨1, 0, 100, 0, 1, 100, 0, 0, 1⟩

/-- A concrete 1×1 single-channel call with the identity matrix and
CONSTANT border. -/
def pOne : WarpParams := mkParams 1 1 1 1 1 1 1 idMat BorderType.constant 0

/-- A concrete call with a 2×2 input, 1×1 output, half-pixel
translation and CONSTANT border. -/
def pHalf : WarpParams := mkParams 2 2 2 1 1 2 1 halfMat BorderType.constant 0

/-- A concrete 1×1 call whose matrix maps far out of range, CONSTANT
border with value 7. -/
def pFarC : WarpParams := mkParams 1 1 1 1 1 1 1 farMat BorderType.constant 7

/-- A concrete 1×1 call whose matrix maps far out of range,
TRANSPARENT border. -/
def pFarT : WarpParams :=
  mkParams 1 1 1 1 1 1 1 farMat BorderType.transparent 0

/-- A concrete 1×1 call with REPLICATE border. -/
def pRep : WarpParams := mkParams 1 1 1 1 1 1 1 idMat BorderType.replicate 0

/-- A concrete 4×4 single-channel call with the identity matrix. -/
def pId4 : WarpParams := mkParams 4 4 4 4 4 4 1 idMat BorderType.constant 0

/-- A concrete call with a 2×1 output grid. -/
def pRow : WarpParams := mkParams 1 1 1 1 2 2 1 idMat BorderType.constant 0

/-- The all-zero buffer. -/
def zeroBuf : ℕ → ℚ := fun _ => 0

/-- The buffer holding its own offset at every element. -/
def natBuf : ℕ → ℚ := fun n => (n : ℚ)

/-- The constant buffer of fives. -/
def fiveBuf : ℕ → ℚ := fun _ => 5

/-- Offset `off` lies inside the channel block of output pixel (x, y). -/
def inPixelRange (p : WarpParams) (x y off : ℕ) : Prop :=
  pixelBase p x y ≤ off ∧ off < pixelBase p x y + p.channels

/-- With a legal stride, the channel block of a pixel strictly to the
left/above another ends before the other begins. -/
theorem pixelBase_add_le (p : WarpParams)
    (hstr : p.outWidth * p.channels ≤ p.outWidthStride)
    (x1 y1 x2 y2 : ℕ) (hx1 : x1 < p.outWidth)
    (h : y1 < y2 ∨ (y1 = y2 ∧ x1 < x2)) :
    pixelBase p x1 y1 + p.channels ≤ pixelBase p x2 y2 := by
  have h1 : x1 * p.channels + p.channels ≤ p.outWidth * p.channels := by
    calc x1 * p.channels + p.channels = (x1 + 1) * p.channels := by
          rw [Nat.succ_mul]
      _ ≤ p.outWidth * p.channels := Nat.mul_le_mul_right _ hx1
  unfold pixelBase
  rcases h with h | ⟨rfl, h⟩
  · have h2 : y1 * p.outWidthStride + p.outWidthStride ≤ y2 * p.outWidthStride := by
      calc y1 * p.outWidthStride + p.outWidthStride
          = (y1 + 1) * p.outWidthStride := by rw [Nat.succ_mul]
        _ ≤ y2 * p.outWidthStride := Nat.mul_le_mul_right _ h
    calc y1 * p.outWidthStride + x1 * p.channels + p.channels
        = y1 * p.outWidthStride + (x1 * p.channels + p.channels) := by
          rw [Nat.add_assoc]
      _ ≤ y1 * p.outWidthStride + p.outWidth * p.channels :=
          Nat.add_le_add_left h1 _
      _ ≤ y1 * p.outWidthStride + p.outWidthStride :=
          Nat.add_le_add_left hstr _
      _ ≤ y2 * p.outWidthStride := h2
      _ ≤ y2 * p.outWidthStride + x2 * p.channels := Nat.le_add_right _ _
  · have h3 : x1 * p.channels + p.channels ≤ x2 * p.channels := by
      calc x1 * p.channels + p.channels = (x1 + 1) * p.channels := by
            rw [Nat.succ_mul]
        _ ≤ x2 * p.channels := Nat.mul_le_mul_right _ h
    calc y1 * p.outWidthStride + x1 * p.channels + p.channels
        = y1 * p.outWidthStride + (x1 * p.channels + p.channels) := by
          rw [Nat.add_assoc]
      _ ≤ y1 * p.outWidthStride + x2 * p.channels := Nat.add_le_add_left h3 _

/-- With a legal stride, distinct grid pixels have disjoint channel
blocks: an offset determines its pixel. -/
theorem inPixelRange_unique (p : WarpParams)
    (hstr : p.outWidth * p.channels ≤ p.outWidthStride)
    (x1 y1 x2 y2 off : ℕ) (hx1 : x1 < p.outWidth) (hx2 : x2 < p.outWidth)
    (h1 : inPixelRange p x1 y1 off) (h2 : inPixelRange p x2 y2 off) :
    x1 = x2 ∧ y1 = y2 := by
  unfold inPixelRange at h1 h2
  by_contra hne
  have hcase : y1 < y2 ∨ (y1 = y2 ∧ x1 < x2) ∨ y2 < y1 ∨ (y2 = y1 ∧ x2 < x1) := by
    omega
  rcases hcase with h | h | h | h
  · have := pixelBase_add_le p hstr x1 y1 x2 y2 hx1 (Or.inl h)
    omega
  · have := pixelBase_add_le p hstr x1 y1 x2 y2 hx1 (Or.inr h)
    omega
  · have := pixelBase_add_le p hstr x2 y2 x1 y1 hx2 (Or.inl h)
    omega
  · have := pixelBase_add_le p hstr x2 y2 x1 y1 hx2 (Or.inr h)
    omega

/-- A loop step leaves every offset outside its pixel's channel block
unchanged. -/
theorem stepPixel_frame (pixelF : ℕ → ℕ → Option (ℕ → ℚ)) (p : WarpParams)
    (buf : ℕ → ℚ) (q : ℕ × ℕ) (off : ℕ)
    (h : ¬ inPixelRange p q.1 q.2 off) :
    stepPixel pixelF p buf q off = buf off := by
  unfold inPixelRange at h
  unfold stepPixel
  cases pixelF q.1 q.2 with
  | none => rfl
  | some vals =>
      unfold writePixel
      exact if_neg h

/-- Unfolding one loop iteration of the traversal. -/
theorem runWarp_cons (pixelF : ℕ → ℕ → Option (ℕ → ℚ)) (p : WarpParams)
    (a : ℕ × ℕ) (l : List (ℕ × ℕ)) (buf0 : ℕ → ℚ) :
    runWarp pixelF p (a :: l) buf0 =
      runWarp pixelF p l (stepPixel pixelF p buf0 a) := rfl

/-- The traversal leaves an offset untouched when no processed pixel's
channel block contains it. -/
theorem runWarp_frame (pixelF : ℕ → ℕ → Option (ℕ → ℚ)) (p : WarpParams)
    (order : List (ℕ × ℕ)) (buf0 : ℕ → ℚ) (off : ℕ)
    (h : ∀ q ∈ order, ¬ inPixelRange p q.1 q.2 off) :
    runWarp pixelF p order buf0 off = buf0 off := by
  induction order generalizing buf0 with
  | nil => rfl
  | cons a l ih =>
      rw [runWarp_cons]
      rw [ih (stepPixel pixelF p buf0 a)
        (fun q hq => h q (List.mem_cons_of_mem a hq))]
      exact stepPixel_frame pixelF p buf0 a off (h a (List.mem_cons_self a l))

/-- The traversal never writes any pixel when the sampler skips every
processed pixel. -/
theorem runWarp_skip (pixelF : ℕ → ℕ → Option (ℕ → ℚ)) (p : WarpParams)
    (order : List (ℕ × ℕ)) (buf0 : ℕ → ℚ)
    (h : ∀ q ∈ order, pixelF q.1 q.2 = none) :
    runWarp pixelF p order buf0 = buf0 := by
  induction order with
  | nil => rfl
  | cons a l ih =>
      rw [runWarp_cons]
      have ha : stepPixel pixelF p buf0 a = buf0 := by
        unfold stepPixel
        rw [h a (List.mem_cons_self a l)]
      rw [ha]
      exact ih (fun q hq => h q (List.mem_cons_of_mem a hq))

/-- The value the traversal leaves at channel c of grid pixel (x, y):
the sampler's value for that pixel, or the pre-existing buffer value
when the sampler skips — independent of where (x, y) sits in the
traversal order. -/
theorem runWarp_at_pixel (pixelF : ℕ → ℕ → Option (ℕ → ℚ)) (p : WarpParams)
    (order : List (ℕ × ℕ)) (buf0 : ℕ → ℚ) (x y c : ℕ)
    (hstr : p.outWidth * p.channels ≤ p.outWidthStride)
    (hnd : order.Nodup) (hx : x < p.outWidth)
    (hmemW : ∀ q ∈ order, q.1 < p.outWidth)
    (hmem : (x, y) ∈ order) (hc : c < p.channels) :
    runWarp pixelF p order buf0 (pixelBase p x y + c) =
      match pixelF x y with
      | some vals => vals c
      | none => buf0 (pixelBase p x y + c) := by
  have hself : inPixelRange p x y (pixelBase p x y + c) :=
    ⟨Nat.le_add_right _ _, by omega⟩
  induction order generalizing buf0 with
  | nil => cases hmem
  | cons a l ih =>
      rcases List.mem_cons.mp hmem with heq | hmem'
      · have hnotin : a ∉ l := (List.nodup_cons.mp hnd).1
        rw [← heq] at hnotin
        have hframe : ∀ q ∈ l, ¬ inPixelRange p q.1 q.2 (pixelBase p x y + c) := by
          intro q hq hin
          have hqx := hmemW q (List.mem_cons_of_mem a hq)
          have heq2 := inPixelRange_unique p hstr q.1 q.2 x y _ hqx hx hin hself
          have : q = (x, y) := Prod.ext heq2.1 heq2.2
          rw [this] at hq
          exact hnotin hq
        rw [runWarp_cons,
          runWarp_frame pixelF p l (stepPixel pixelF p buf0 a) _ hframe, ← heq]
        unfold stepPixel
        cases pixelF x y with
        | none => rfl
        | some vals =>
            show writePixel p buf0 x y vals (pixelBase p x y + c) = vals c
            simp only [writePixel]
            rw [if_pos ⟨Nat.le_add_right _ _, by omega⟩, Nat.add_sub_cancel_left]
      · have hne : a ≠ (x, y) := by
          rintro rfl
          exact (List.nodup_cons.mp hnd).1 hmem'
        have hax := hmemW a (List.mem_cons_self a l)
        have hframe_a : ¬ inPixelRange p a.1 a.2 (pixelBase p x y + c) := by
          intro hin
          have heq2 := inPixelRange_unique p hstr a.1 a.2 x y _ hax hx hin hself
          exact hne (Prod.ext heq2.1 heq2.2)
        rw [runWarp_cons,
          ih (stepPixel pixelF p buf0 a) (List.nodup_cons.mp hnd).2
            (fun q hq => hmemW q (List.mem_cons_of_mem a hq)) hmem']
        cases pixelF x y with
        | some vals => rfl
        | none => exact stepPixel_frame pixelF p buf0 a _ hframe_a

/-- Membership in the row-major traversal is exactly membership in the
output grid. -/
theorem mem_rowMajor (p : WarpParams) (q : ℕ × ℕ) :
    q ∈ rowMajor p ↔ q.1 < p.outWidth ∧ q.2 < p.outHeight := by
  unfold rowMajor
  rw [List.mem_flatMap]
  constructor
  · rintro ⟨y, hy, hq⟩
    rw [List.mem_map] at hq
    obtain ⟨x, hx, rfl⟩ := hq
    rw [List.mem_range] at hy hx
    exact ⟨hx, hy⟩
  · rintro ⟨h1, h2⟩
    exact ⟨q.2, List.mem_range.mpr h2,
      List.mem_map.mpr ⟨q.1, List.mem_range.mpr h1, rfl⟩⟩

/-- The row-major traversal visits each output pixel exactly once. -/
theorem nodup_rowMajor (p : WarpParams) : (rowMajor p).Nodup := by
  unfold rowMajor
  rw [List.nodup_flatMap]
  constructor
  · intro y _
    exact (List.nodup_range _).map fun a b h => congrArg Prod.fst h
  · refine List.Pairwise.imp ?_ (List.pairwise_lt_range p.outHeight)
    intro a b hab
    simp only [Function.onFun, List.Disjoint]
    intro q hq1 hq2
    rw [List.mem_map] at hq1 hq2
    obtain ⟨x1, _, rfl⟩ := hq1
    obtain ⟨x2, _, h2⟩ := hq2
    have hb : b = a := congrArg Prod.snd h2
    omega

/-- Traversal-order independence: any duplicate-free enumeration of the
output grid produces the same final buffer as the row-major one. -/
theorem runWarp_of_perm (pixelF : ℕ → ℕ → Option (ℕ → ℚ)) (p : WarpParams)
    (order : List (ℕ × ℕ)) (buf0 : ℕ → ℚ)
    (hstr : p.outWidth * p.channels ≤ p.outWidthStride)
    (ho : order.Perm (rowMajor p)) :
    runWarp pixelF p order buf0 = runWarp pixelF p (rowMajor p) buf0 := by
  funext off
  have hnd : order.Nodup := ho.nodup_iff.mpr (nodup_rowMajor p)
  have hmemo : ∀ q, q ∈ order ↔ q.1 < p.outWidth ∧ q.2 < p.outHeight := by
    intro q
    rw [ho.mem_iff, mem_rowMajor]
  rcases Classical.em
      (∃ x y, x < p.outWidth ∧ y < p.outHeight ∧ inPixelRange p x y off) with
    hex | hex
  · obtain ⟨x, y, hx, hy, hin⟩ := hex
    have hinr := hin
    unfold inPixelRange at hinr
    rw [show off = pixelBase p x y + (off - pixelBase p x y) from by omega,
      runWarp_at_pixel pixelF p order buf0 x y _ hstr hnd hx
        (fun q hq => ((hmemo q).mp hq).1) ((hmemo (x, y)).mpr ⟨hx, hy⟩)
        (by omega),
      runWarp_at_pixel pixelF p (rowMajor p) buf0 x y _ hstr
        (nodup_rowMajor p) hx (fun q hq => ((mem_rowMajor p q).mp hq).1)
        ((mem_rowMajor p (x, y)).mpr ⟨hx, hy⟩) (by omega)]
  · push_neg at hex
    have h1 : ∀ q ∈ order, ¬ inPixelRange p q.1 q.2 off := by
      intro q hq
      have h := (hmemo q).mp hq
      exact hex q.1 q.2 h.1 h.2
    have h2 : ∀ q ∈ rowMajor p, ¬ inPixelRange p q.1 q.2 off := by
      intro q hq
      have h := (mem_rowMajor p q).mp hq
      exact hex q.1 q.2 h.1 h.2
    rw [runWarp_frame pixelF p order buf0 off h1,
      runWarp_frame pixelF p (rowMajor p) buf0 off h2]

/-- The value of the nearest-point operation at channel c of grid pixel
(x, y). -/
theorem warpNearest_at_pixel (p : WarpParams) (d buf0 : ℕ → ℚ) (x y c : ℕ)
    (hstr : p.outWidth * p.channels ≤ p.outWidthStride)
    (hx : x < p.outWidth) (hy : y < p.outHeight) (hc : c < p.channels) :
    WarpPerspectiveNearestPoint p d buf0 (pixelBase p x y + c) =
      match nearestResult p d x y with
      | some vals => vals c
      | none => buf0 (pixelBase p x y + c) :=
  runWarp_at_pixel (nearestResult p d) p (rowMajor p) buf0 x y c hstr
    (nodup_rowMajor p) hx (fun q hq => ((mem_rowMajor p q).mp hq).1)
    ((mem_rowMajor p (x, y)).mpr ⟨hx, hy⟩) hc

/-- The value of the bilinear operation at channel c of grid pixel
(x, y). -/
theorem warpLinear_at_pixel (store : ℚ → ℚ) (p : WarpParams)
    (d buf0 : ℕ → ℚ) (x y c : ℕ)
    (hstr : p.outWidth * p.channels ≤ p.outWidthStride)
    (hx : x < p.outWidth) (hy : y < p.outHeight) (hc : c < p.channels) :
    WarpPerspectiveLinear store p d buf0 (pixelBase p x y + c) =
      match linearResult store p d x y with
      | some vals => vals c
      | none => buf0 (pixelBase p x y + c) :=
  runWarp_at_pixel (linearResult store p d) p (rowMajor p) buf0 x y c hstr
    (nodup_rowMajor p) hx (fun q hq => ((mem_rowMajor p q).mp hq).1)
    ((mem_rowMajor p (x, y)).mpr ⟨hx, hy⟩) hc

/-- An in-range tap resolves to the input pixel it names. -/
theorem resolveTap_inRange (p : WarpParams) (d : ℕ → ℚ) (tx ty : ℤ) (c : ℕ)
    (h : inRangeTap p tx ty) :
    resolveTap p d tx ty c = inPixel p d tx.toNat ty.toNat c := by
  unfold resolveTap
  exact if_pos h

/-- Clamping always lands on a valid index of a nonempty axis. -/
theorem clampIdx_lt (n : ℕ) (i : ℤ) (h : 0 < n) : clampIdx n i < n := by
  unfold clampIdx
  omega

/-- The written value of a bilinear output pixel that is not skipped:
the element store applied to the accumulated blend. -/
theorem warpLinear_written (store : ℚ → ℚ) (p : WarpParams)
    (d buf0 : ℕ → ℚ) (x y c : ℕ)
    (hstr : p.outWidth * p.channels ≤ p.outWidthStride)
    (hx : x < p.outWidth) (hy : y < p.outHeight) (hc : c < p.channels)
    (hns : ¬ (p.border_type = BorderType.transparent ∧
      ¬ inRangeTap p ⌊uCoord p.M x y⌋ ⌊vCoord p.M x y⌋)) :
    WarpPerspectiveLinear store p d buf0 (pixelBase p x y + c)
      = store (blendAt p d x y c) := by
  rw [warpLinear_at_pixel store p d buf0 x y c hstr hx hy hc]
  unfold linearResult linearAt
  rw [if_neg hns]
  rfl

/-- C1: at every output grid pixel (x, y), both perspective operations
sample at the source coordinate (u, v) given by w = m20·x + m21·y + m22,
u = (m00·x + m01·y + m02)/w, v = (m10·x + m11·y + m12)/w, under the
precondition that the denominator w is nonzero. -/
theorem C1_perspective_mapping (p : WarpParams) (store : ℚ → ℚ)
    (d buf0 : ℕ → ℚ) (x y c : ℕ)
    (hstr : p.outWidth * p.channels ≤ p.outWidthStride)
    (hx : x < p.outWidth) (hy : y < p.outHeight) (hc : c < p.channels)
    (hw : wCoord p.M x y ≠ 0) :
    wCoord p.M x y = p.M.m20 * (x : ℚ) + p.M.m21 * (y : ℚ) + p.M.m22 ∧
    uCoord p.M x y * wCoord p.M x y
      = p.M.m00 * (x : ℚ) + p.M.m01 * (y : ℚ) + p.M.m02 ∧
    vCoord p.M x y * wCoord p.M x y
      = p.M.m10 * (x : ℚ) + p.M.m11 * (y : ℚ) + p.M.m12 ∧
    WarpPerspectiveNearestPoint p d buf0 (pixelBase p x y + c)
      = (match nearestAt p d (uCoord p.M x y) (vCoord p.M x y) with
         | some vals => vals c
         | none => buf0 (pixelBase p x y + c)) ∧
    WarpPerspectiveLinear store p d buf0 (pixelBase p x y + c)
      = (match linearAt store p d (uCoord p.M x y) (vCoord p.M x y) with
         | some vals => vals c
         | none => buf0 (pixelBase p x y + c)) := by
  refine ⟨?_, ?_, ?_, ?_, ?_⟩
  · unfold wCoord
    push_cast
    ring
  · unfold uCoord
    rw [div_mul_cancel₀ _ hw]
    push_cast
    ring
  · unfold vCoord
    rw [div_mul_cancel₀ _ hw]
    push_cast
    ring
  · exact warpNearest_at_pixel p d buf0 x y c hstr hx hy hc
  · exact warpLinear_at_pixel store p d buf0 x y c hstr hx hy hc

/-- C2: at every output pixel whose four bilinear taps are all in
range, the bilinear operation stores exactly the blend
(1−fu)(1−fv)·P(u0,v0) + fu(1−fv)·P(u0+1,v0) + (1−fu)fv·P(u0,v0+1) +
fu·fv·P(u0+1,v0+1) of the raw input pixels, for each channel, through
the instantiated element store. -/
theorem C2_bilinear_blend (store : ℚ → ℚ) (p : WarpParams)
    (d buf0 : ℕ → ℚ) (x y c : ℕ)
    (hstr : p.outWidth * p.channels ≤ p.outWidthStride)
    (hx : x < p.outWidth) (hy : y < p.outHeight) (hc : c < p.channels)
    (h00 : inRangeTap p ⌊uCoord p.M x y⌋ ⌊vCoord p.M x y⌋)
    (h10 : inRangeTap p (⌊uCoord p.M x y⌋ + 1) ⌊vCoord p.M x y⌋)
    (h01 : inRangeTap p ⌊uCoord p.M x y⌋ (⌊vCoord p.M x y⌋ + 1))
    (h11 : inRangeTap p (⌊uCoord p.M x y⌋ + 1) (⌊vCoord p.M x y⌋ + 1)) :
    WarpPerspectiveLinear store p d buf0 (pixelBase p x y + c)
      = store (bilinearBlend
          (inPixel p d ⌊uCoord p.M x y⌋.toNat ⌊vCoord p.M x y⌋.toNat c)
          (inPixel p d (⌊uCoord p.M x y⌋ + 1).toNat ⌊vCoord p.M x y⌋.toNat c)
          (inPixel p d ⌊uCoord p.M x y⌋.toNat (⌊vCoord p.M x y⌋ + 1).toNat c)
          (inPixel p d (⌊uCoord p.M x y⌋ + 1).toNat
            (⌊vCoord p.M x y⌋ + 1).toNat c)
          (uCoord p.M x y - (⌊uCoord p.M x y⌋ : ℚ))
          (vCoord p.M x y - (⌊vCoord p.M x y⌋ : ℚ))) := by
  rw [warpLinear_written store p d buf0 x y c hstr hx hy hc
    (fun h => h.2 h00)]
  unfold blendAt blendAtCoord
  rw [resolveTap_inRange p d _ _ c h00, resolveTap_inRange p d _ _ c h10,
    resolveTap_inRange p d _ _ c h01, resolveTap_inRange p d _ _ c h11]

/-- C4: under CONSTANT border with nearest-point interpolation, an
output pixel whose mapped source coordinate rounds outside
[0, inWidth) × [0, inHeight) is written with exactly border_value, on
every channel, for every input buffer. -/
theorem C4_constant_out_of_range (p : WarpParams) (d buf0 : ℕ → ℚ)
    (x y c : ℕ)
    (hstr : p.outWidth * p.channels ≤ p.outWidthStride)
    (hx : x < p.outWidth) (hy : y < p.outHeight) (hc : c < p.channels)
    (hb : p.border_type = BorderType.constant)
    (hout : ¬ inRangeTap p (round (uCoord p.M x y)) (round (vCoord p.M x y))) :
    WarpPerspectiveNearestPoint p d buf0 (pixelBase p x y + c)
      = p.border_value := by
  rw [warpNearest_at_pixel p d buf0 x y c hstr hx hy hc]
  unfold nearestResult nearestAt
  rw [if_neg hout, hb]

/-- C3: on a bilinear output pixel that is written, the 8-bit unsigned
instantiation stores the higher-precision accumulated blend rounded
and clamped into [0, 255], while the float32 instantiation stores the
accumulated blend without any clamping. -/
theorem C3_store_rounding (p : WarpParams) (d buf0 : ℕ → ℚ) (x y c : ℕ)
    (hstr : p.outWidth * p.channels ≤ p.outWidthStride)
    (hx : x < p.outWidth) (hy : y < p.outHeight) (hc : c < p.channels)
    (hns : ¬ (p.border_type = BorderType.transparent ∧
      ¬ inRangeTap p ⌊uCoord p.M x y⌋ ⌊vCoord p.M x y⌋)) :
    WarpPerspectiveLinear storeU8 p d buf0 (pixelBase p x y + c)
      = ((max 0 (min 255 (round (blendAt p d x y c))) : ℤ) : ℚ) ∧
    0 ≤ WarpPerspectiveLinear storeU8 p d buf0 (pixelBase p x y + c) ∧
    WarpPerspectiveLinear storeU8 p d buf0 (pixelBase p x y + c) ≤ 255 ∧
    WarpPerspectiveLinear storeF32 p d buf0 (pixelBase p x y + c)
      = blendAt p d x y c := by
  have h8 := warpLinear_written storeU8 p d buf0 x y c hstr hx hy hc hns
  have hf := warpLinear_written storeF32 p d buf0 x y c hstr hx hy hc hns
  have hlo : (0 : ℤ) ≤ max 0 (min 255 (round (blendAt p d x y c))) := by omega
  have hhi : max 0 (min 255 (round (blendAt p d x y c))) ≤ 255 := by omega
  refine ⟨h8, ?_, ?_, hf⟩
  · rw [h8]
    unfold storeU8
    exact_mod_cast hlo
  · rw [h8]
    unfold storeU8
    exact_mod_cast hhi

/-- C5: under TRANSPARENT, an output pixel whose required source taps
are unreachable is not written — its pre-existing buffer value
survives, per pixel, even when other pixels of the same call are in
range and written (the bilinear skip trigger being the top-left tap,
the spec's recommended partial-coverage rule; the nearest trigger the
rounded pick); in particular, a transform mapping every output pixel
outside the input bounds leaves the whole buffer untouched. -/
theorem C5_transparent_untouched (store : ℚ → ℚ) (p : WarpParams)
    (d outData : ℕ → ℚ) (x y c : ℕ)
    (hstr : p.outWidth * p.channels ≤ p.outWidthStride)
    (hx : x < p.outWidth) (hy : y < p.outHeight) (hc : c < p.channels)
    (hb : p.border_type = BorderType.transparent) :
    (¬ inRangeTap p ⌊uCoord p.M x y⌋ ⌊vCoord p.M x y⌋ →
      WarpPerspectiveLinear store p d outData (pixelBase p x y + c)
        = outData (pixelBase p x y + c)) ∧
    (¬ inRangeTap p (round (uCoord p.M x y)) (round (vCoord p.M x y)) →
      WarpPerspectiveNearestPoint p d outData (pixelBase p x y + c)
        = outData (pixelBase p x y + c)) ∧
    ((∀ x2 y2, x2 < p.outWidth → y2 < p.outHeight →
        ¬ inRangeTap p ⌊uCoord p.M x2 y2⌋ ⌊vCoord p.M x2 y2⌋) →
      WarpPerspectiveLinear store p d outData = outData) ∧
    ((∀ x2 y2, x2 < p.outWidth → y2 < p.outHeight →
        ¬ inRangeTap p (round (uCoord p.M x2 y2))
          (round (vCoord p.M x2 y2))) →
      WarpPerspectiveNearestPoint p d outData = outData) := by
  refine ⟨?_, ?_, ?_, ?_⟩
  · intro h
    rw [warpLinear_at_pixel store p d outData x y c hstr hx hy hc]
    unfold linearResult linearAt
    rw [if_pos ⟨hb, h⟩]
  · intro h
    rw [warpNearest_at_pixel p d outData x y c hstr hx hy hc]
    unfold nearestResult nearestAt
    rw [if_neg h, hb]
  · intro hallL
    apply runWarp_skip
    intro q hq
    have h := (mem_rowMajor p q).mp hq
    unfold linearResult linearAt
    rw [if_pos ⟨hb, hallL q.1 q.2 h.1 h.2⟩]
  · intro hallN
    apply runWarp_skip
    intro q hq
    have h := (mem_rowMajor p q).mp hq
    unfold nearestResult nearestAt
    rw [if_neg (hallN q.1 q.2 h.1 h.2), hb]

/-- C6: under REPLICATE, on an input whose pixels all hold one
constant color, every written output pixel of the nearest-point
operation equals that color, whatever the transformation matrix. -/
theorem C6_replicate_constant_color (p : WarpParams) (d buf0 : ℕ → ℚ)
    (x y c : ℕ) (col : ℕ → ℚ)
    (hstr : p.outWidth * p.channels ≤ p.outWidthStride)
    (hx : x < p.outWidth) (hy : y < p.outHeight) (hc : c < p.channels)
    (hb : p.border_type = BorderType.replicate)
    (hW : 0 < p.inWidth) (hH : 0 < p.inHeight)
    (hconst : ∀ sx sy, sx < p.inWidth → sy < p.inHeight →
      inPixel p d sx sy c = col c) :
    WarpPerspectiveNearestPoint p d buf0 (pixelBase p x y + c) = col c := by
  rw [warpNearest_at_pixel p d buf0 x y c hstr hx hy hc]
  unfold nearestResult nearestAt
  by_cases hin :
      inRangeTap p (round (uCoord p.M x y)) (round (vCoord p.M x y))
  · rw [if_pos hin]
    show inPixel p d _ _ c = col c
    obtain ⟨h1, h2, h3, h4⟩ := hin
    exact hconst _ _ (by omega) (by omega)
  · rw [if_neg hin, hb]
    show inPixel p d _ _ c = col c
    exact hconst _ _ (clampIdx_lt _ _ hW) (clampIdx_lt _ _ hH)

/-- C8: at an output pixel whose mapped source coordinate is exactly
integer-valued and in range, the bilinear operation writes exactly the
input pixel value there — for the float32 path at arbitrary input
values, and for the 8-bit path whenever the sampled pixel holds an
integer in [0, 255] (the representable values of that type). -/
theorem C8_integer_coordinate_exact (p : WarpParams) (d buf0 : ℕ → ℚ)
    (x y c : ℕ) (iu iv : ℤ)
    (hstr : p.outWidth * p.channels ≤ p.outWidthStride)
    (hx : x < p.outWidth) (hy : y < p.outHeight) (hc : c < p.channels)
    (hu : uCoord p.M x y = (iu : ℚ)) (hv : vCoord p.M x y = (iv : ℚ))
    (hin : inRangeTap p iu iv) :
    WarpPerspectiveLinear storeF32 p d buf0 (pixelBase p x y + c)
      = inPixel p d iu.toNat iv.toNat c ∧
    (∀ k : ℕ, k ≤ 255 → inPixel p d iu.toNat iv.toNat c = (k : ℚ) →
      WarpPerspectiveLinear storeU8 p d buf0 (pixelBase p x y + c)
        = inPixel p d iu.toNat iv.toNat c) := by
  have hfu : ⌊uCoord p.M x y⌋ = iu := by
    rw [hu]
    exact Int.floor_intCast iu
  have hfv : ⌊vCoord p.M x y⌋ = iv := by
    rw [hv]
    exact Int.floor_intCast iv
  have hns : ¬ (p.border_type = BorderType.transparent ∧
      ¬ inRangeTap p ⌊uCoord p.M x y⌋ ⌊vCoord p.M x y⌋) := by
    rw [hfu, hfv]
    exact fun h => h.2 hin
  have hblend : blendAt p d x y c = inPixel p d iu.toNat iv.toNat c := by
    unfold blendAt blendAtCoord
    rw [hfu, hfv, hu, hv, resolveTap_inRange p d iu iv c hin]
    unfold bilinearBlend
    ring
  constructor
  · rw [warpLinear_written storeF32 p d buf0 x y c hstr hx hy hc hns, hblend]
    rfl
  · intro k hk hpix
    rw [warpLinear_written storeU8 p d buf0 x y c hstr hx hy hc hns, hblend,
      hpix]
    unfold storeU8
    rw [round_natCast]
    have hmm : max 0 (min 255 ((k : ℤ))) = (k : ℤ) := by omega
    rw [hmm]
    push_cast
    ring

/-- C9: each warp operation is a pure, order-independent function of
its arguments: traversing the output grid in any duplicate-free order
(any permutation of the row-major traversal) produces the same final
output buffer as the operation itself. -/
theorem C9_order_independence (p : WarpParams) (store : ℚ → ℚ)
    (d buf0 : ℕ → ℚ) (order : List (ℕ × ℕ))
    (hstr : p.outWidth * p.channels ≤ p.outWidthStride)
    (ho : order.Perm (rowMajor p)) :
    runWarp (nearestResult p d) p order buf0
      = WarpPerspectiveNearestPoint p d buf0 ∧
    runWarp (linearResult store p d) p order buf0
      = WarpPerspectiveLinear store p d buf0 :=
  ⟨runWarp_of_perm (nearestResult p d) p order buf0 hstr ho,
   runWarp_of_perm (linearResult store p d) p order buf0 hstr ho⟩

/-- C10: a well-formed call returns the OK status code, and omitting
the border arguments behaves identically to passing
BORDER_TYPE_CONSTANT and 0 explicitly, for both operations. -/
theorem C10_defaults_and_status (inH inW inStride outH outW outStride ch : ℕ)
    (M : Mat3) (d buf0 : ℕ → ℚ) :
    warpRetCode (mkParamsDefault inH inW inStride outH outW outStride ch M)
      = RetCode.ok ∧
    warpRetCode (mkParams inH inW inStride outH outW outStride ch M
      BorderType.constant 0) = RetCode.ok ∧
    mkParamsDefault inH inW inStride outH outW outStride ch M
      = mkParams inH inW inStride outH outW outStride ch M
          BorderType.constant 0 ∧
    WarpPerspectiveNearestPoint
        (mkParamsDefault inH inW inStride outH outW outStride ch M) d buf0
      = WarpPerspectiveNearestPoint
          (mkParams inH inW inStride outH outW outStride ch M
            BorderType.constant 0) d buf0 ∧
    ∀ store : ℚ → ℚ,
      WarpPerspectiveLinear store
          (mkParamsDefault inH inW inStride outH outW outStride ch M) d buf0
        = WarpPerspectiveLinear store
            (mkParams inH inW inStride outH outW outStride ch M
              BorderType.constant 0) d buf0 :=
  ⟨rfl, rfl, rfl, rfl, fun _ => rfl⟩

/-- C7: warping with the identity transformation matrix in
nearest-point mode, with output dimensions equal to input dimensions
and tight strides, reproduces the input buffer bit-for-bit at every
element offset of the image (in particular for a 4×4 single-channel
8-bit image). -/
theorem C7_identity_reproduces_input (p : WarpParams) (d buf0 : ℕ → ℚ)
    (off : ℕ)
    (hM : p.M = idMat)
    (hW : p.inWidth = p.outWidth) (hH : p.inHeight = p.outHeight)
    (hs1 : p.inWidthStride = p.outWidth * p.channels)
    (hs2 : p.outWidthStride = p.outWidth * p.channels)
    (hch : 0 < p.channels)
    (hoff : off < p.outHeight * (p.outWidth * p.channels)) :
    WarpPerspectiveNearestPoint p d buf0 off = d off := by
  have hS : 0 < p.outWidth * p.channels := by
    rcases Nat.eq_zero_or_pos (p.outWidth * p.channels) with h0 | h0
    · rw [h0, Nat.mul_zero] at hoff
      omega
    · exact h0
  have hWpos : 0 < p.outWidth := by
    rcases Nat.eq_zero_or_pos p.outWidth with h0 | h0
    · rw [h0, Nat.zero_mul] at hS
      omega
    · exact h0
  have hr : off % (p.outWidth * p.channels) < p.outWidth * p.channels :=
    Nat.mod_lt _ hS
  have hcc : off % (p.outWidth * p.channels) % p.channels < p.channels :=
    Nat.mod_lt _ hch
  have hxlt : off % (p.outWidth * p.channels) / p.channels < p.outWidth :=
    (Nat.div_lt_iff_lt_mul hch).mpr hr
  have hylt : off / (p.outWidth * p.channels) < p.outHeight :=
    (Nat.div_lt_iff_lt_mul hS).mpr hoff
  have hbase :
      pixelBase p (off % (p.outWidth * p.channels) / p.channels)
          (off / (p.outWidth * p.channels))
        + off % (p.outWidth * p.channels) % p.channels = off := by
    unfold pixelBase
    rw [hs2]
    calc off / (p.outWidth * p.channels) * (p.outWidth * p.channels)
          + off % (p.outWidth * p.channels) / p.channels * p.channels
          + off % (p.outWidth * p.channels) % p.channels
        = p.outWidth * p.channels * (off / (p.outWidth * p.channels))
            + (p.channels * (off % (p.outWidth * p.channels) / p.channels)
              + off % (p.outWidth * p.channels) % p.channels) := by
          ring
      _ = p.outWidth * p.channels * (off / (p.outWidth * p.channels))
            + off % (p.outWidth * p.channels) := by
          rw [Nat.div_add_mod]
      _ = off := Nat.div_add_mod off (p.outWidth * p.channels)
  rw [← hbase,
    warpNearest_at_pixel p d buf0 _ _ _ (le_of_eq hs2.symm) hxlt hylt hcc]
  have huv : ∀ xg yg : ℕ,
      uCoord p.M ((xg : ℕ) : ℤ) ((yg : ℕ) : ℤ) = (xg : ℚ) ∧
      vCoord p.M ((xg : ℕ) : ℤ) ((yg : ℕ) : ℤ) = (yg : ℚ) := by
    intro xg yg
    rw [hM]
    constructor
    · unfold uCoord wCoord idMat
      push_cast
      ring_nf
    · unfold vCoord wCoord idMat
      push_cast
      ring_nf
  have hu := (huv (off % (p.outWidth * p.channels) / p.channels)
    (off / (p.outWidth * p.channels))).1
  have hv := (huv (off % (p.outWidth * p.channels) / p.channels)
    (off / (p.outWidth * p.channels))).2
  have hin : inRangeTap p
      (round (uCoord p.M
        ((off % (p.outWidth * p.channels) / p.channels : ℕ) : ℤ)
        ((off / (p.outWidth * p.channels) : ℕ) : ℤ)))
      (round (vCoord p.M
        ((off % (p.outWidth * p.channels) / p.channels : ℕ) : ℤ)
        ((off / (p.outWidth * p.channels) : ℕ) : ℤ))) := by
    rw [hu, hv, round_natCast, round_natCast]
    refine ⟨Int.natCast_nonneg _, ?_, Int.natCast_nonneg _, ?_⟩
    · rw [hW]
      exact_mod_cast hxlt
    · rw [hH]
      exact_mod_cast hylt
  unfold nearestResult nearestAt
  rw [if_pos hin]
  show inPixel p d _ _ _ = d _
  rw [hu, hv, round_natCast, round_natCast]
  unfold inPixel
  rw [Int.toNat_natCast, Int.toNat_natCast, hs1]
  congr 1
  unfold pixelBase
  rw [hs2]

/-- Witness for C1 at the concrete 1×1 identity call. -/
theorem C1_perspective_mapping_witness :
    (pOne.outWidth * pOne.channels ≤ pOne.outWidthStride ∧
      0 < pOne.outWidth ∧ 0 < pOne.outHeight ∧ 0 < pOne.channels ∧
      wCoord pOne.M 0 0 ≠ 0) ∧
    (wCoord pOne.M 0 0
        = pOne.M.m20 * ((0 : ℕ) : ℚ) + pOne.M.m21 * ((0 : ℕ) : ℚ)
          + pOne.M.m22 ∧
      uCoord pOne.M 0 0 * wCoord pOne.M 0 0
        = pOne.M.m00 * ((0 : ℕ) : ℚ) + pOne.M.m01 * ((0 : ℕ) : ℚ)
          + pOne.M.m02 ∧
      vCoord pOne.M 0 0 * wCoord pOne.M 0 0
        = pOne.M.m10 * ((0 : ℕ) : ℚ) + pOne.M.m11 * ((0 : ℕ) : ℚ)
          + pOne.M.m12 ∧
      WarpPerspectiveNearestPoint pOne zeroBuf zeroBuf (pixelBase pOne 0 0 + 0)
        = (match nearestAt pOne zeroBuf (uCoord pOne.M 0 0)
              (vCoord pOne.M 0 0) with
           | some vals => vals 0
           | none => zeroBuf (pixelBase pOne 0 0 + 0)) ∧
      WarpPerspectiveLinear storeF32 pOne zeroBuf zeroBuf
          (pixelBase pOne 0 0 + 0)
        = (match linearAt storeF32 pOne zeroBuf (uCoord pOne.M 0 0)
              (vCoord pOne.M 0 0) with
           | some vals => vals 0
           | none => zeroBuf (pixelBase pOne 0 0 + 0))) :=
  ⟨⟨by decide, by decide, by decide, by decide,
      by norm_num [wCoord, pOne, mkParams, idMat]⟩,
    C1_perspective_mapping pOne storeF32 zeroBuf zeroBuf 0 0 0 (by decide)
      (by decide) (by decide) (by decide)
      (by norm_num [wCoord, pOne, mkParams, idMat])⟩

/-- Witness for C2 at the concrete half-pixel translation call. -/
theorem C2_bilinear_blend_witness :
    (pHalf.outWidth * pHalf.channels ≤ pHalf.outWidthStride ∧
      0 < pHalf.outWidth ∧ 0 < pHalf.outHeight ∧ 0 < pHalf.channels ∧
      inRangeTap pHalf ⌊uCoord pHalf.M 0 0⌋ ⌊vCoord pHalf.M 0 0⌋ ∧
      inRangeTap pHalf (⌊uCoord pHalf.M 0 0⌋ + 1) ⌊vCoord pHalf.M 0 0⌋ ∧
      inRangeTap pHalf ⌊uCoord pHalf.M 0 0⌋ (⌊vCoord pHalf.M 0 0⌋ + 1) ∧
      inRangeTap pHalf (⌊uCoord pHalf.M 0 0⌋ + 1) (⌊vCoord pHalf.M 0 0⌋ + 1)) ∧
    WarpPerspectiveLinear storeF32 pHalf natBuf zeroBuf
        (pixelBase pHalf 0 0 + 0)
      = storeF32 (bilinearBlend
          (inPixel pHalf natBuf ⌊uCoord pHalf.M 0 0⌋.toNat
            ⌊vCoord pHalf.M 0 0⌋.toNat 0)
          (inPixel pHalf natBuf (⌊uCoord pHalf.M 0 0⌋ + 1).toNat
            ⌊vCoord pHalf.M 0 0⌋.toNat 0)
          (inPixel pHalf natBuf ⌊uCoord pHalf.M 0 0⌋.toNat
            (⌊vCoord pHalf.M 0 0⌋ + 1).toNat 0)
          (inPixel pHalf natBuf (⌊uCoord pHalf.M 0 0⌋ + 1).toNat
            (⌊vCoord pHalf.M 0 0⌋ + 1).toNat 0)
          (uCoord pHalf.M 0 0 - (⌊uCoord pHalf.M 0 0⌋ : ℚ))
          (vCoord pHalf.M 0 0 - (⌊vCoord pHalf.M 0 0⌋ : ℚ))) :=
  ⟨⟨by decide, by decide, by decide, by decide,
      by norm_num [inRangeTap, uCoord, vCoord, wCoord, pHalf, mkParams, halfMat],
      by norm_num [inRangeTap, uCoord, vCoord, wCoord, pHalf, mkParams, halfMat],
      by norm_num [inRangeTap, uCoord, vCoord, wCoord, pHalf, mkParams, halfMat],
      by norm_num [inRangeTap, uCoord, vCoord, wCoord, pHalf, mkParams, halfMat]⟩,
    C2_bilinear_blend storeF32 pHalf natBuf zeroBuf 0 0 0 (by decide)
      (by decide) (by decide) (by decide)
      (by norm_num [inRangeTap, uCoord, vCoord, wCoord, pHalf, mkParams, halfMat])
      (by norm_num [inRangeTap, uCoord, vCoord, wCoord, pHalf, mkParams, halfMat])
      (by norm_num [inRangeTap, uCoord, vCoord, wCoord, pHalf, mkParams, halfMat])
      (by norm_num [inRangeTap, uCoord, vCoord, wCoord, pHalf, mkParams, halfMat])⟩

/-- Witness for C3 at the concrete half-pixel translation call. -/
theorem C3_store_rounding_witness :
    (pHalf.outWidth * pHalf.channels ≤ pHalf.outWidthStride ∧
      0 < pHalf.outWidth ∧ 0 < pHalf.outHeight ∧ 0 < pHalf.channels ∧
      ¬ (pHalf.border_type = BorderType.transparent ∧
        ¬ inRangeTap pHalf ⌊uCoord pHalf.M 0 0⌋ ⌊vCoord pHalf.M 0 0⌋)) ∧
    (WarpPerspectiveLinear storeU8 pHalf natBuf zeroBuf
        (pixelBase pHalf 0 0 + 0)
      = ((max 0 (min 255 (round (blendAt pHalf natBuf 0 0 0))) : ℤ) : ℚ) ∧
    0 ≤ WarpPerspectiveLinear storeU8 pHalf natBuf zeroBuf
        (pixelBase pHalf 0 0 + 0) ∧
    WarpPerspectiveLinear storeU8 pHalf natBuf zeroBuf
        (pixelBase pHalf 0 0 + 0) ≤ 255 ∧
    WarpPerspectiveLinear storeF32 pHalf natBuf zeroBuf
        (pixelBase pHalf 0 0 + 0)
      = blendAt pHalf natBuf 0 0 0) :=
  ⟨⟨by decide, by decide, by decide, by decide,
      by simp [pHalf, mkParams]⟩,
    C3_store_rounding pHalf natBuf zeroBuf 0 0 0 (by decide) (by decide)
      (by decide) (by decide) (by simp [pHalf, mkParams])⟩

/-- Witness for C4 at the concrete far-translation CONSTANT call. -/
theorem C4_constant_out_of_range_witness :
    (pFarC.outWidth * pFarC.channels ≤ pFarC.outWidthStride ∧
      0 < pFarC.outWidth ∧ 0 < pFarC.outHeight ∧ 0 < pFarC.channels ∧
      pFarC.border_type = BorderType.constant ∧
      ¬ inRangeTap pFarC (round (uCoord pFarC.M 0 0))
        (round (vCoord pFarC.M 0 0))) ∧
    WarpPerspectiveNearestPoint pFarC natBuf zeroBuf
        (pixelBase pFarC 0 0 + 0)
      = pFarC.border_value :=
  ⟨⟨by decide, by decide, by decide, by decide, by decide,
      by norm_num [inRangeTap, uCoord, vCoord, wCoord, pFarC, mkParams,
        farMat, round_eq]⟩,
    C4_constant_out_of_range pFarC natBuf zeroBuf 0 0 0 (by decide)
      (by decide) (by decide) (by decide) (by decide)
      (by norm_num [inRangeTap, uCoord, vCoord, wCoord, pFarC, mkParams,
        farMat, round_eq])⟩

/-- Witness for C5 at the concrete far-translation TRANSPARENT call. -/
theorem C5_transparent_untouched_witness :
    (pFarT.outWidth * pFarT.channels ≤ pFarT.outWidthStride ∧
      0 < pFarT.outWidth ∧ 0 < pFarT.outHeight ∧ 0 < pFarT.channels ∧
      pFarT.border_type = BorderType.transparent) ∧
    ((¬ inRangeTap pFarT ⌊uCoord pFarT.M 0 0⌋ ⌊vCoord pFarT.M 0 0⌋ →
        WarpPerspectiveLinear storeF32 pFarT natBuf natBuf
            (pixelBase pFarT 0 0 + 0)
          = natBuf (pixelBase pFarT 0 0 + 0)) ∧
      (¬ inRangeTap pFarT (round (uCoord pFarT.M 0 0))
          (round (vCoord pFarT.M 0 0)) →
        WarpPerspectiveNearestPoint pFarT natBuf natBuf
            (pixelBase pFarT 0 0 + 0)
          = natBuf (pixelBase pFarT 0 0 + 0)) ∧
      ((∀ x2 y2, x2 < pFarT.outWidth → y2 < pFarT.outHeight →
          ¬ inRangeTap pFarT ⌊uCoord pFarT.M x2 y2⌋ ⌊vCoord pFarT.M x2 y2⌋) →
        WarpPerspectiveLinear storeF32 pFarT natBuf natBuf = natBuf) ∧
      ((∀ x2 y2, x2 < pFarT.outWidth → y2 < pFarT.outHeight →
          ¬ inRangeTap pFarT (round (uCoord pFarT.M x2 y2))
            (round (vCoord pFarT.M x2 y2))) →
        WarpPerspectiveNearestPoint pFarT natBuf natBuf = natBuf)) :=
  ⟨⟨by decide, by decide, by decide, by decide, rfl⟩,
    C5_transparent_untouched storeF32 pFarT natBuf natBuf 0 0 0 (by decide)
      (by decide) (by decide) (by decide) rfl⟩

/-- Witness for C6 at the concrete REPLICATE call on a constant
input. -/
theorem C6_replicate_constant_color_witness :
    (pRep.outWidth * pRep.channels ≤ pRep.outWidthStride ∧
      0 < pRep.outWidth ∧ 0 < pRep.outHeight ∧ 0 < pRep.channels ∧
      pRep.border_type = BorderType.replicate ∧
      0 < pRep.inWidth ∧ 0 < pRep.inHeight ∧
      (∀ sx sy, sx < pRep.inWidth → sy < pRep.inHeight →
        inPixel pRep fiveBuf sx sy 0 = fiveBuf 0)) ∧
    WarpPerspectiveNearestPoint pRep fiveBuf zeroBuf
        (pixelBase pRep 0 0 + 0)
      = fiveBuf 0 :=
  ⟨⟨by decide, by decide, by decide, by decide, by decide, by decide,
      by decide, fun _ _ _ _ => rfl⟩,
    C6_replicate_constant_color pRep fiveBuf zeroBuf 0 0 0 fiveBuf
      (by decide) (by decide) (by decide) (by decide) (by decide) (by decide)
      (by decide) (fun _ _ _ _ => rfl)⟩

/-- Witness for C7 at the concrete 4×4 identity call, offset 7. -/
theorem C7_identity_reproduces_input_witness :
    (pId4.M = idMat ∧ pId4.inWidth = pId4.outWidth ∧
      pId4.inHeight = pId4.outHeight ∧
      pId4.inWidthStride = pId4.outWidth * pId4.channels ∧
      pId4.outWidthStride = pId4.outWidth * pId4.channels ∧
      0 < pId4.channels ∧
      7 < pId4.outHeight * (pId4.outWidth * pId4.channels)) ∧
    WarpPerspectiveNearestPoint pId4 natBuf zeroBuf 7 = natBuf 7 :=
  ⟨⟨rfl, rfl, rfl, rfl, rfl, by decide, by decide⟩,
    C7_identity_reproduces_input pId4 natBuf zeroBuf 7 rfl rfl rfl rfl rfl
      (by decide) (by decide)⟩

/-- Witness for C8 at the concrete 1×1 identity call. -/
theorem C8_integer_coordinate_exact_witness :
    (pOne.outWidth * pOne.channels ≤ pOne.outWidthStride ∧
      0 < pOne.outWidth ∧ 0 < pOne.outHeight ∧ 0 < pOne.channels ∧
      uCoord pOne.M 0 0 = ((0 : ℤ) : ℚ) ∧
      vCoord pOne.M 0 0 = ((0 : ℤ) : ℚ) ∧
      inRangeTap pOne 0 0) ∧
    (WarpPerspectiveLinear storeF32 pOne natBuf zeroBuf
        (pixelBase pOne 0 0 + 0)
      = inPixel pOne natBuf (0 : ℤ).toNat (0 : ℤ).toNat 0 ∧
    (∀ k : ℕ, k ≤ 255 →
      inPixel pOne natBuf (0 : ℤ).toNat (0 : ℤ).toNat 0 = (k : ℚ) →
      WarpPerspectiveLinear storeU8 pOne natBuf zeroBuf
          (pixelBase pOne 0 0 + 0)
        = inPixel pOne natBuf (0 : ℤ).toNat (0 : ℤ).toNat 0)) :=
  ⟨⟨by decide, by decide, by decide, by decide,
      by norm_num [uCoord, wCoord, pOne, mkParams, idMat],
      by norm_num [vCoord, wCoord, pOne, mkParams, idMat],
      by norm_num [inRangeTap, pOne, mkParams]⟩,
    C8_integer_coordinate_exact pOne natBuf zeroBuf 0 0 0 0 0 (by decide)
      (by decide) (by decide) (by decide)
      (by norm_num [uCoord, wCoord, pOne, mkParams, idMat])
      (by norm_num [vCoord, wCoord, pOne, mkParams, idMat])
      (by norm_num [inRangeTap, pOne, mkParams])⟩

/-- Witness for C9: the 2×1 grid traversed right-to-left gives the
same buffers as the operations themselves. -/
theorem C9_order_independence_witness :
    (pRow.outWidth * pRow.channels ≤ pRow.outWidthStride ∧
      ([((1 : ℕ), (0 : ℕ)), (0, 0)]).Perm (rowMajor pRow)) ∧
    (runWarp (nearestResult pRow natBuf) pRow [(1, 0), (0, 0)] zeroBuf
        = WarpPerspectiveNearestPoint pRow natBuf zeroBuf ∧
      runWarp (linearResult storeF32 pRow natBuf) pRow [(1, 0), (0, 0)] zeroBuf
        = WarpPerspectiveLinear storeF32 pRow natBuf zeroBuf) :=
  ⟨⟨by decide, by decide⟩,
    C9_order_independence pRow storeF32 natBuf zeroBuf [(1, 0), (0, 0)]
      (by decide) (by decide)⟩

end PplCv
